import Mathlib

/-!
Shallow embedding of `src/rnd/autogpt_builder/src/components/Flow.tsx`, the
interactive canvas component of the visual agent-building tool.

Modelling conventions:
* Numeric screen positions (JavaScript numbers) are modelled as integers.
* The third-party graph library (`@xyflow/react`) operations used by the
  component (`addNodes`, `addEdges`, `deleteElements`, `updateNode`,
  `applyNodeChanges`, `applyEdgeChanges`) are modelled with their documented
  semantics: `addNodes`/`addEdges` append, `deleteElements` removes the listed
  elements plus the edges connected to removed nodes, and — because the
  component renders a controlled flow (`nodes`/`edges` props together with
  `onNodesChange`/`onEdgesChange` handlers) — `addEdges` and `deleteElements`
  are routed through the component's own `onEdgesChange`/`onNodesChange`
  handlers, exactly as the handler code (which processes "add" and "remove"
  changes) expects.
* React state (`useState`, `useRef`) is explicit state passing over
  `EditorState`.
* External collaborators (`getTypeColor ∘ getOutputType`, the viewport
  center computation, `Date.now()`, keyboard modifiers, the modal/input-focus
  guards) are parameters.
-/
/-- An x/y screen position (JavaScript numbers modelled as integers). -/
structure Position where
  x : Int
  y : Int
deriving DecidableEq

/-- One entry of `node.data.connections` (see the objects built in
`onEdgesChange` from added edges). -/
structure NodeConnection where
  edge_id : String
  source : String
  target : String
  sourceHandle : String
  targetHandle : String
deriving DecidableEq

/-- The `data` payload of a `CustomNode` (fields used by `Flow.tsx`;
schema payloads are kept as opaque strings). -/
structure NodeData where
  blockType : String
  title : String
  description : String
  categories : List String
  inputSchema : String
  outputSchema : String
  hardcodedValues : List (String × String)
  connections : List NodeConnection
  isOutputOpen : Bool
  block_id : String
  isOutputStatic : Bool
  status : Option String := none
  output_data : Option String := none
deriving DecidableEq

/-- A node of the flow graph. -/
structure CustomNode where
  id : String
  type : String
  position : Position
  data : NodeData
  selected : Bool := false
deriving DecidableEq

/-- The `markerEnd` rendering props attached to a new edge in `onConnect`. -/
structure MarkerEnd where
  type : String := "arrowclosed"
  strokeWidth : Nat := 2
  color : String
deriving DecidableEq

/-- The `data` payload of a `CustomEdge` as built in `onConnect`. -/
structure EdgeData where
  edgeColor : String
  sourcePos : Position
  isStatic : Bool
deriving DecidableEq

/-- An edge of the flow graph. -/
structure CustomEdge where
  id : String
  type : String
  source : String
  sourceHandle : String
  target : String
  targetHandle : String
  markerEnd : MarkerEnd
  data : EdgeData
  selected : Bool := false
deriving DecidableEq

/-- A block schema, i.e. one entry of `availableNodes` (fields read by
`addNode`). -/
structure BlockSchema where
  id : String
  description : String
  categories : List String
  inputSchema : String
  outputSchema : String
  staticOutput : Bool
deriving DecidableEq

/-- A backend link, the first alternative accepted by `formatEdgeID`. -/
structure Link where
  source_id : String
  source_name : String
  sink_id : String
  sink_name : String
deriving DecidableEq

/-- A connection attempt delivered by the graph library to `onConnect`. -/
structure Connection where
  source : String
  sourceHandle : String
  target : String
  targetHandle : String
deriving DecidableEq

/-- The `Link | Connection` union taken by `formatEdgeID`. -/
inductive LinkOrConnection where
  | link (l : Link)
  | conn (c : Connection)
deriving DecidableEq

/-- A history entry: the operation type together with the data captured by
the entry's `undo`/`redo` closures at the push site. -/
inductive HistoryEntry where
  | addNodeEntry (node : CustomNode)
  | addEdgeEntry (edge : CustomEdge)
  | updateNodePositionEntry (nodeId : String) (oldPosition newPosition : Position)
deriving DecidableEq

/-- The `type` string of a history entry. -/
def entryType : HistoryEntry → String
  | .addNodeEntry _ => "ADD_NODE"
  | .addEdgeEntry _ => "ADD_EDGE"
  | .updateNodePositionEntry _ _ _ => "UPDATE_NODE_POSITION"

/-- Modelled from the spec: the `history` module imported by `Flow.tsx`
(`./history`) is not part of the source slice; the spec describes it as "an
in-memory undo/redo stack of reversible graph-editing operations", so it is
modelled as a pair of stacks: entries not yet undone, and undone entries
available for redo. -/
structure HistoryStack where
  undoStack : List HistoryEntry := []
  redoStack : List HistoryEntry := []
deriving DecidableEq

/-- The component state of `FlowEditor`: the graph (`nodes`/`edges` from
`useAgentGraph`), the `nodeId` counter, the clipboard, the history, the
`initialPositionRef` map and the `isDragging` flag. -/
@[ext]
structure EditorState where
  nodes : List CustomNode
  edges : List CustomEdge
  nodeId : Nat
  copiedNodes : List CustomNode
  copiedEdges : List CustomEdge
  history : HistoryStack
  initialPositionRef : List (String × Position)
  isDragging : Bool
deriving DecidableEq

/-- A node change delivered to `onNodesChange` (the variants arising in this
component: removals, selections, position updates). -/
inductive NodeChange where
  | remove (id : String)
  | select (id : String) (selected : Bool)
  | positionChange (id : String) (position : Position)
deriving DecidableEq

/-- An edge change delivered to `onEdgesChange`. -/
inductive EdgeChange where
  | add (item : CustomEdge)
  | remove (id : String)
  | select (id : String) (selected : Bool)
  | replace (item : CustomEdge)
deriving DecidableEq

/-- Library `applyNodeChanges`, one change. -/
def applyNodeChange (c : NodeChange) (nodes : List CustomNode) : List CustomNode :=
  match c with
  | .remove i => nodes.filter (fun n => !(n.id == i))
  | .select i sel => nodes.map (fun n => if n.id = i then { n with selected := sel } else n)
  | .positionChange i p => nodes.map (fun n => if n.id = i then { n with position := p } else n)

/-- Library `applyNodeChanges`. -/
def applyNodeChanges (cs : List NodeChange) (nodes : List CustomNode) : List CustomNode :=
  cs.foldl (fun ns c => applyNodeChange c ns) nodes

/-- Library `applyEdgeChanges`, one change. -/
def applyEdgeChange (c : EdgeChange) (edges : List CustomEdge) : List CustomEdge :=
  match c with
  | .add e => edges ++ [e]
  | .remove i => edges.filter (fun e => !(e.id == i))
  | .select i sel => edges.map (fun e => if e.id = i then { e with selected := sel } else e)
  | .replace e => edges.map (fun old => if old.id = e.id then e else old)

/-- Library `applyEdgeChanges`. -/
def applyEdgeChanges (cs : List EdgeChange) (edges : List CustomEdge) : List CustomEdge :=
  cs.foldl (fun es c => applyEdgeChange c es) edges

/-- Source `clearNodesStatusAndOutput`, restricted to one node: clear
`status`, `output_data` and close the output dropdown. -/
def clearNode (n : CustomNode) : CustomNode :=
  { n with data := { n.data with status := none, output_data := none, isOutputOpen := false } }

/-- Source `clearNodesStatusAndOutput`: map `clearNode` over all nodes. -/
def clearNodesStatusAndOutput (s : EditorState) : EditorState :=
  { s with nodes := s.nodes.map clearNode }

/-- The connection record built by `onEdgesChange` for an added or replaced
edge. -/
def connOfEdge (e : CustomEdge) : NodeConnection :=
  { edge_id := e.id, source := e.source, target := e.target,
    sourceHandle := e.sourceHandle, targetHandle := e.targetHandle }

/-- Source `onEdgesChange`: persist the changes with `applyEdgeChanges`, then
propagate add/remove changes into every node's `data.connections`, clearing
statuses when edges were removed; a nonempty batch of replace changes resets
every node's connections to the replaced edges and clears statuses. -/
def onEdgesChange (cs : List EdgeChange) (s : EditorState) : EditorState :=
  let s1 := { s with edges := applyEdgeChanges cs s.edges }
  let addedEdges := cs.filterMap (fun c => match c with | EdgeChange.add e => some e | _ => none)
  let replaceEdges := cs.filterMap (fun c => match c with | EdgeChange.replace e => some e | _ => none)
  let removedIds := cs.filterMap (fun c => match c with | EdgeChange.remove i => some i | _ => none)
  let s2 :=
    if 0 < addedEdges.length ∨ 0 < removedIds.length then
      let updateConns := fun (n : CustomNode) =>
        let conns := n.data.connections.filter (fun conn => !(removedIds.contains conn.edge_id))
        { n with data := { n.data with connections := conns ++ addedEdges.map connOfEdge } }
      let s2a := { s1 with nodes := s1.nodes.map updateConns }
      if 0 < removedIds.length then clearNodesStatusAndOutput s2a else s2a
    else s1
  if 0 < replaceEdges.length then
    let resetConns := fun (n : CustomNode) =>
      { n with data := { n.data with connections := replaceEdges.map connOfEdge } }
    clearNodesStatusAndOutput { s2 with nodes := s2.nodes.map resetConns }
  else s2

/-- Library `deleteElements` called with edges only (as in `onNodesChange`):
it looks the ids up in the store and routes remove changes for the edges that
exist through `onEdgesChange`. -/
def deleteEdgesOnly (edgeIds : List String) (s : EditorState) : EditorState :=
  onEdgesChange ((edgeIds.filter (fun i => s.edges.any (fun e => e.id == i))).map EdgeChange.remove) s

/-- The per-change cleanup step of `onNodesChange`: for each "remove" change,
delete the edges (of the edge list captured by the handler) connected to the
removed node. -/
def removeConnectedEdgesStep (origEdges : List CustomEdge) (st : EditorState) (c : NodeChange) :
    EditorState :=
  match c with
  | NodeChange.remove nid =>
      deleteEdgesOnly ((origEdges.filter (fun e => e.source == nid || e.target == nid)).map
        (fun e => e.id)) st
  | _ => st

/-- Source `onNodesChange`: persist the changes, then remove all edges that
were connected to deleted nodes. -/
def onNodesChange (cs : List NodeChange) (s : EditorState) : EditorState :=
  let s1 := { s with nodes := applyNodeChanges cs s.nodes }
  cs.foldl (removeConnectedEdgesStep s.edges) s1

/-- Source `onNodesDelete`: clear statuses and outputs. -/
def onNodesDelete (s : EditorState) : EditorState :=
  clearNodesStatusAndOutput s

/-- Library `deleteElements`: remove the listed nodes and edges that exist,
plus the edges connected to the removed nodes, routing remove changes through
the component's `onEdgesChange` and `onNodesChange` handlers, and firing
`onNodesDelete` when nodes were deleted. -/
def deleteElements (nodeIds : List String) (edgeIds : List String) (s : EditorState) :
    EditorState :=
  let matchingNodes := s.nodes.filter (fun n => nodeIds.contains n.id)
  let matchingEdges := s.edges.filter (fun e => edgeIds.contains e.id)
  let connectedEdges := s.edges.filter (fun e =>
    matchingNodes.any (fun n => n.id == e.source || n.id == e.target))
  let edgesToRemove := matchingEdges ++
    connectedEdges.filter (fun e => !(matchingEdges.any (fun m => m.id == e.id)))
  let s1 := onEdgesChange (edgesToRemove.map (fun e => EdgeChange.remove e.id)) s
  let s2 := onNodesChange (matchingNodes.map (fun n => NodeChange.remove n.id)) s1
  if 0 < matchingNodes.length then onNodesDelete s2 else s2

/-- Library `addNodes`: append (the component's `onNodesChange` handles "add"
changes through `applyNodeChanges` only, so the net effect is an append). -/
def addNodes (ns : List CustomNode) (s : EditorState) : EditorState :=
  { s with nodes := s.nodes ++ ns }

/-- Library `addEdges`: routed through `onEdgesChange` as "add" changes. -/
def addEdges (es : List CustomEdge) (s : EditorState) : EditorState :=
  onEdgesChange (es.map EdgeChange.add) s

/-- Library `updateNode` as used here: `updateNode(id, { position })`. -/
def updateNodePositionOp (nid : String) (pos : Position) (s : EditorState) : EditorState :=
  { s with nodes := s.nodes.map (fun n => if n.id = nid then { n with position := pos } else n) }

/-- Modelled from the spec: `history.push` of the missing `history` module —
push the entry on the undo stack; a new operation discards the redoable
entries. -/
def historyPush (e : HistoryEntry) (s : EditorState) : EditorState :=
  { s with history := { undoStack := e :: s.history.undoStack, redoStack := [] } }

/-- The effect of a history entry's `undo` closure (captured at the push
sites of `Flow.tsx`). -/
def applyUndo (e : HistoryEntry) (s : EditorState) : EditorState :=
  match e with
  | .addNodeEntry n => deleteElements [n.id] [] s
  | .addEdgeEntry ed => deleteElements [] [ed.id] s
  | .updateNodePositionEntry nid oldP _ => updateNodePositionOp nid oldP s

/-- The effect of a history entry's `redo` closure. -/
def applyRedo (e : HistoryEntry) (s : EditorState) : EditorState :=
  match e with
  | .addNodeEntry n => addNodes [n] s
  | .addEdgeEntry ed => addEdges [ed] s
  | .updateNodePositionEntry nid _ newP => updateNodePositionOp nid newP s

/-- Modelled from the spec: `handleUndo` — run the most recent not-yet-undone
entry's `undo` closure and move the entry to the redo stack. -/
def handleUndo (s : EditorState) : EditorState :=
  match s.history.undoStack with
  | [] => s
  | e :: rest =>
    let s1 := applyUndo e s
    { s1 with history := { undoStack := rest, redoStack := e :: s.history.redoStack } }

/-- Modelled from the spec: `handleRedo` — run the most recently undone
entry's `redo` closure and move the entry back to the undo stack. -/
def handleRedo (s : EditorState) : EditorState :=
  match s.history.redoStack with
  | [] => s
  | e :: rest =>
    let s1 := applyRedo e s
    { s1 with history := { undoStack := e :: s.history.undoStack, redoStack := rest } }

/-- Source `MINIMUM_MOVE_BEFORE_LOG`: the minimum distance a block must move
before the move is logged in the history. -/
def MINIMUM_MOVE_BEFORE_LOG : Int := 50

/-- The squared Euclidean movement distance; the source computes
`Math.sqrt((newX-oldX)^2 + (newY-oldY)^2)` and compares it with the (positive)
threshold, which is equivalent to comparing the square against the squared
threshold because the square root is strictly monotone on nonnegatives. -/
def squaredDistance (oldP newP : Position) : Int :=
  (newP.x - oldP.x) ^ 2 + (newP.y - oldP.y) ^ 2

/-- `initialPositionRef` lookup. -/
def refGet (m : List (String × Position)) (k : String) : Option Position :=
  (m.find? (fun p => p.1 == k)).map (fun p => p.2)

/-- `initialPositionRef[k] = v` (JavaScript object property assignment). -/
def refSet (m : List (String × Position)) (k : String) (v : Position) :
    List (String × Position) :=
  m.filter (fun p => !(p.1 == k)) ++ [(k, v)]

/-- `delete initialPositionRef[k]`. -/
def refDelete (m : List (String × Position)) (k : String) : List (String × Position) :=
  m.filter (fun p => !(p.1 == k))

/-- Source `onNodeDragStart`: record the node's position and set the dragging
flag. -/
def onNodeDragStart (node : CustomNode) (s : EditorState) : EditorState :=
  { s with initialPositionRef := refSet s.initialPositionRef node.id node.position,
           isDragging := true }

/-- Source `onNodeDragEnd` (installed as `onNodeDragStop`): when the recorded
start position exists and the movement distance strictly exceeds the
threshold, push an `UPDATE_NODE_POSITION` entry; then drop the recorded
position. -/
def onNodeDragEnd (nodeOpt : Option CustomNode) (s : EditorState) : EditorState :=
  match nodeOpt with
  | none => s
  | some node =>
    let s1 := { s with isDragging := false }
    match refGet s1.initialPositionRef node.id with
    | none => s1
    | some oldPosition =>
      let newPosition := node.position
      let s2 :=
        if MINIMUM_MOVE_BEFORE_LOG ^ 2 < squaredDistance oldPosition newPosition then
          historyPush (.updateNodePositionEntry node.id oldPosition newPosition) s1
        else s1
      { s2 with initialPositionRef := refDelete s2.initialPositionRef node.id }

/-- A completed drag on an existing node: the library reports the drag start,
moves the node to its end position, and reports the drag stop with the moved
node. -/
def completedDrag (nid : String) (endPos : Position) (s : EditorState) : EditorState :=
  match s.nodes.find? (fun n => n.id == nid) with
  | none => s
  | some node =>
    let s1 := onNodeDragStart node s
    let s2 := updateNodePositionOp nid endPos s1
    onNodeDragEnd (some { node with position := endPos }) s2

/-- Source `formatEdgeID`. -/
def formatEdgeID : LinkOrConnection → String
  | .link l => l.source_id ++ "_" ++ l.source_name ++ "_" ++ l.sink_id ++ "_" ++ l.sink_name
  | .conn c => c.source ++ "_" ++ c.sourceHandle ++ "_" ++ c.target ++ "_" ++ c.targetHandle

/-- The new edge built by `onConnect`; `edgeColor` abbreviates
`getTypeColor(getOutputType(source, sourceHandle))`. -/
def newEdgeFor (edgeColor : String) (sourceNode : CustomNode) (c : Connection) : CustomEdge :=
  { id := formatEdgeID (.conn c), type := "custom",
    markerEnd := { type := "arrowclosed", strokeWidth := 2, color := edgeColor },
    data := { edgeColor := edgeColor, sourcePos := sourceNode.position,
              isStatic := sourceNode.data.isOutputStatic },
    source := c.source, sourceHandle := c.sourceHandle,
    target := c.target, targetHandle := c.targetHandle,
    selected := false }

/-- Source `onConnect`: build the new edge (dereferencing the source node —
`none` models the thrown TypeError when it is absent), add it, push an
`ADD_EDGE` entry, and clear statuses. `getEdgeColor` stands for the external
`getTypeColor ∘ getOutputType`. -/
def onConnect (getEdgeColor : String → String → String) (c : Connection) (s : EditorState) :
    Option EditorState :=
  match s.nodes.find? (fun n => n.id == c.source) with
  | none => none
  | some sourceNode =>
    let newEdge := newEdgeFor (getEdgeColor c.source c.sourceHandle) sourceNode c
    let s1 := addEdges [newEdge] s
    let s2 := historyPush (.addEdgeEntry newEdge) s1
    some (clearNodesStatusAndOutput s2)

/-- The new node built by `addNode` from the matching block schema;
`viewportCenter` stands for the externally computed viewport center. -/
def newNodeFor (nodeSchema : BlockSchema) (blockId nodeType : String) (nid : Nat)
    (viewportCenter : Position) : CustomNode :=
  let newData : NodeData :=
    { blockType := nodeType, title := nodeType ++ " " ++ toString nid,
      description := nodeSchema.description, categories := nodeSchema.categories,
      inputSchema := nodeSchema.inputSchema, outputSchema := nodeSchema.outputSchema,
      hardcodedValues := [], connections := [], isOutputOpen := false,
      block_id := blockId, isOutputStatic := nodeSchema.staticOutput,
      status := none, output_data := none }
  { id := toString nid, type := "custom", position := viewportCenter,
    selected := false, data := newData }

/-- Source `addNode`: find the block schema (no-op with a console error when
missing), add the new node at the viewport center, bump the id counter, clear
statuses, and push an `ADD_NODE` entry. -/
def addNode (availableNodes : List BlockSchema) (viewportCenter : Position)
    (blockId nodeType : String) (s : EditorState) : EditorState :=
  match availableNodes.find? (fun b => b.id == blockId) with
  | none => s
  | some nodeSchema =>
    let newNode := newNodeFor nodeSchema blockId nodeType s.nodeId viewportCenter
    let s1 := addNodes [newNode] s
    let s2 := { s1 with nodeId := s1.nodeId + 1 }
    let s3 := clearNodesStatusAndOutput s2
    historyPush (.addNodeEntry newNode) s3

/-- Source `handleKeyDown` copy branch: store the selected nodes and edges. -/
def copySelection (s : EditorState) : EditorState :=
  { s with copiedNodes := s.nodes.filter (fun n => n.selected),
           copiedEdges := s.edges.filter (fun e => e.selected) }

/-- JavaScript object lookup for `oldToNewNodeIDMap` (last assignment wins). -/
def jsLookup (m : List (String × String)) (k : String) : Option String :=
  (m.reverse.find? (fun p => p.1 == k)).map (fun p => p.2)

/-- The `oldToNewNodeIDMap` built during paste. -/
def oldToNewNodeIDMap (copiedNodes : List CustomNode) (nid : Nat) : List (String × String) :=
  copiedNodes.enum.map (fun p => (p.2.id, toString (nid + p.1)))

/-- The pasted nodes: fresh counter-based ids, positions offset by (20, 20),
status and output data reset. -/
def pastedNodesOf (copiedNodes : List CustomNode) (nid : Nat) : List CustomNode :=
  copiedNodes.enum.map (fun p =>
    let newPos : Position := { x := p.2.position.x + 20, y := p.2.position.y + 20 }
    let newData := { p.2.data with status := (none : Option String), output_data := (none : Option String) }
    { p.2 with id := toString (nid + p.1), position := newPos, data := newData })

/-- The pasted edges: endpoints remapped through `oldToNewNodeIDMap` (falling
back to the original id), with a timestamped id. -/
def pastedEdgesOf (copiedNodes : List CustomNode) (copiedEdges : List CustomEdge)
    (nid : Nat) (now : Nat) : List CustomEdge :=
  copiedEdges.map (fun e =>
    let newSourceId := (jsLookup (oldToNewNodeIDMap copiedNodes nid) e.source).getD e.source
    let newTargetId := (jsLookup (oldToNewNodeIDMap copiedNodes nid) e.target).getD e.target
    let newId := newSourceId ++ "_" ++ e.sourceHandle ++ "_" ++ newTargetId ++ "_" ++ e.targetHandle ++ "_" ++ toString now
    { e with id := newId, source := newSourceId, target := newTargetId })

/-- Source `handleKeyDown` paste branch: when the clipboard holds nodes,
deselect the existing nodes, add the pasted nodes, bump the id counter by the
number of pasted nodes, and add the remapped pasted edges. `now` stands for
`Date.now()`. -/
def pasteClipboard (now : Nat) (s : EditorState) : EditorState :=
  if 0 < s.copiedNodes.length then
    let pastedNodes := pastedNodesOf s.copiedNodes s.nodeId
    let s1 := { s with nodes := s.nodes.map (fun n => { n with selected := false }) }
    let s2 := addNodes pastedNodes s1
    let s3 := { s2 with nodeId := s2.nodeId + s.copiedNodes.length }
    addEdges (pastedEdgesOf s.copiedNodes s.copiedEdges s.nodeId now) s3
  else s

/-- The key commands handled by `handleKeyDown`. -/
inductive KeyCommand where
  | copyKey
  | pasteKey
deriving DecidableEq

/-- Source `handleKeyDown`: ignore the event when a modal is open or the
focus is on an input field; otherwise dispatch Ctrl/Cmd+C and Ctrl/Cmd+V. -/
def handleKeyDown (isAnyModalOpen isInputField ctrlOrMeta : Bool) (k : KeyCommand)
    (now : Nat) (s : EditorState) : EditorState :=
  if isAnyModalOpen || isInputField then s
  else if ctrlOrMeta then
    match k with
    | .copyKey => copySelection s
    | .pasteKey => pasteClipboard now s
  else s

def appendConnFor (e : CustomEdge) (n : CustomNode) : CustomNode :=
  { n with data := { n.data with connections := n.data.connections ++ [connOfEdge e] } }

def dropConnFor (i : String) (n : CustomNode) : CustomNode :=
  { n with data := { n.data with connections := n.data.connections.filter (fun conn => !(conn.edge_id == i)) } }

def exData : NodeData :=
  { blockType := "T", title := "T A", description := "d", categories := ["c"],
    inputSchema := "I", outputSchema := "O", hardcodedValues := [], connections := [],
    isOutputOpen := false, block_id := "b", isOutputStatic := false }

def exNodeA : CustomNode :=
  { id := "A", type := "custom", position := ⟨0, 0⟩, data := exData, selected := false }

def exStateEmpty : EditorState :=
  { nodes := [], edges := [], nodeId := 1, copiedNodes := [], copiedEdges := [],
    history := {}, initialPositionRef := [], isDragging := false }

def exStateA : EditorState := { exStateEmpty with nodes := [exNodeA] }

def exBlock : BlockSchema :=
  { id := "b", description := "d", categories := ["c"], inputSchema := "I",
    outputSchema := "O", staticOutput := false }

def exConnAA : Connection :=
  { source := "A", sourceHandle := "h1", target := "A", targetHandle := "h2" }

def exStateH : EditorState :=
  { exStateA with history := { undoStack := [HistoryEntry.addNodeEntry exNodeA],
                               redoStack := [] } }

def appendConnsFor (es : List CustomEdge) (n : CustomNode) : CustomNode :=
  { n with data := { n.data with connections := n.data.connections ++ es.map connOfEdge } }

def pastedNodeShape (k : Nat) (i : Nat) (orig : CustomNode) : CustomNode :=
  { orig with
    id := toString (k + i),
    position := ⟨orig.position.x + 20, orig.position.y + 20⟩,
    data := { orig.data with status := none, output_data := none } }

def exEdgeSel : CustomEdge :=
  { id := "B_h1_B_h2", type := "custom", source := "B", sourceHandle := "h1",
    target := "B", targetHandle := "h2", markerEnd := { color := "red" },
    data := { edgeColor := "red", sourcePos := ⟨0, 0⟩, isStatic := false }, selected := true }

def exNodeB : CustomNode := { exNodeA with id := "B", selected := true }

def exStateC7 : EditorState :=
  { exStateEmpty with
    nodes := [exNodeA],
    copiedNodes := [exNodeB],
    copiedEdges := [exEdgeSel],
    nodeId := 5 }

def exEdgeAB : CustomEdge :=
  { exEdgeSel with id := "A_x_B_y", source := "A", target := "B", selected := false }

def exEdgeBB : CustomEdge :=
  { exEdgeSel with id := "B_x_B_y", source := "B", target := "B", selected := false }

def exStateC9 : EditorState :=
  { exStateEmpty with nodes := [exNodeA, exNodeB], edges := [exEdgeAB, exEdgeBB] }

theorem clearNode_clearNode (n : CustomNode) : clearNode (clearNode n) = clearNode n := rfl

theorem onEdgesChange_nil (s : EditorState) : onEdgesChange [] s = s := rfl

theorem onNodesChange_nil (s : EditorState) : onNodesChange [] s = s := rfl

theorem deleteEdgesOnly_nil (s : EditorState) : deleteEdgesOnly [] s = s := rfl

theorem addEdges_single (e : CustomEdge) (s : EditorState) :
    addEdges [e] s = { s with edges := s.edges ++ [e], nodes := s.nodes.map (appendConnFor e) } := by
  simp only [addEdges, onEdgesChange, List.map_cons, List.map_nil, List.filterMap_cons,
    List.filterMap_nil, applyEdgeChanges, List.foldl_cons, List.foldl_nil, applyEdgeChange,
    List.length_cons, List.length_nil, appendConnFor]
  norm_num
  intro a ha
  rfl

theorem onEdgesChange_remove_single (i : String) (s : EditorState) :
    onEdgesChange [.remove i] s =
      clearNodesStatusAndOutput
        { s with edges := s.edges.filter (fun e => !(e.id == i)),
                 nodes := s.nodes.map (dropConnFor i) } := by
  simp only [onEdgesChange, List.filterMap_cons, List.filterMap_nil, applyEdgeChanges,
    List.foldl_cons, List.foldl_nil, applyEdgeChange, List.length_cons, List.length_nil,
    List.map_nil, clearNodesStatusAndOutput, dropConnFor]
  norm_num
  intro a ha
  simp only [dropConnFor, clearNode]
  congr 1

theorem history_clear (s : EditorState) : (clearNodesStatusAndOutput s).history = s.history := rfl

theorem history_onEdgesChange (cs : List EdgeChange) (s : EditorState) :
    (onEdgesChange cs s).history = s.history := by
  simp only [onEdgesChange]
  (repeat' split) <;> rfl

theorem history_deleteEdgesOnly (ids : List String) (s : EditorState) :
    (deleteEdgesOnly ids s).history = s.history :=
  history_onEdgesChange _ _

theorem history_step (E : List CustomEdge) (st : EditorState) (c : NodeChange) :
    (removeConnectedEdgesStep E st c).history = st.history := by
  cases c <;> simp [removeConnectedEdgesStep, history_deleteEdgesOnly]

theorem history_foldl (E : List CustomEdge) (cs : List NodeChange) :
    ∀ st : EditorState, (cs.foldl (removeConnectedEdgesStep E) st).history = st.history := by
  induction cs with
  | nil => intro st; rfl
  | cons c cs ih => intro st; rw [List.foldl_cons, ih, history_step]

theorem history_onNodesChange (cs : List NodeChange) (s : EditorState) :
    (onNodesChange cs s).history = s.history := by
  unfold onNodesChange
  rw [history_foldl]

theorem history_deleteElements (nids eids : List String) (s : EditorState) :
    (deleteElements nids eids s).history = s.history := by
  simp only [deleteElements, onNodesDelete]
  split
  · rw [history_clear, history_onNodesChange, history_onEdgesChange]
  · rw [history_onNodesChange, history_onEdgesChange]

theorem history_onNodesDelete (s : EditorState) : (onNodesDelete s).history = s.history := rfl

theorem history_addNodes (ns : List CustomNode) (s : EditorState) :
    (addNodes ns s).history = s.history := rfl

theorem history_addEdges (es : List CustomEdge) (s : EditorState) :
    (addEdges es s).history = s.history :=
  history_onEdgesChange _ _

theorem history_updateNodePositionOp (nid : String) (p : Position) (s : EditorState) :
    (updateNodePositionOp nid p s).history = s.history := rfl

theorem history_copySelection (s : EditorState) :
    (copySelection s).history = s.history := rfl

theorem history_pasteClipboard (now : Nat) (s : EditorState) :
    (pasteClipboard now s).history = s.history := by
  unfold pasteClipboard
  split
  · rw [history_addEdges]
    rfl
  · rfl

theorem history_handleKeyDown (m i c : Bool) (k : KeyCommand) (now : Nat) (s : EditorState) :
    (handleKeyDown m i c k now s).history = s.history := by
  unfold handleKeyDown
  split
  · rfl
  · split
    · cases k
      · exact history_copySelection s
      · exact history_pasteClipboard now s
    · rfl

theorem refGet_refSet (m : List (String × Position)) (k : String) (v : Position) :
    refGet (refSet m k v) k = some v := by
  unfold refGet refSet
  rw [List.find?_append]
  have h1 : (m.filter (fun p => !(p.1 == k))).find? (fun p => p.1 == k) = none := by
    rw [List.find?_eq_none]
    intro x hx
    have h2 := (List.mem_filter.mp hx).2
    simpa using h2
  rw [h1]
  simp

theorem refDelete_refSet (m : List (String × Position)) (k : String) (v : Position) :
    refDelete (refSet m k v) k = refDelete m k := by
  unfold refDelete refSet
  rw [List.filter_append, List.filter_filter]
  simp

theorem completedDrag_eq (nid : String) (endPos : Position) (s : EditorState)
    (node : CustomNode) (h : s.nodes.find? (fun n => n.id == nid) = some node) :
    completedDrag nid endPos s =
      { s with nodes := (updateNodePositionOp nid endPos s).nodes,
               isDragging := false,
               initialPositionRef := refDelete s.initialPositionRef nid,
               history :=
                 if MINIMUM_MOVE_BEFORE_LOG ^ 2 < squaredDistance node.position endPos
                 then { undoStack := HistoryEntry.updateNodePositionEntry nid node.position endPos
                          :: s.history.undoStack,
                        redoStack := [] }
                 else s.history } := by
  have hid : node.id = nid := by
    have h2 := List.find?_some h
    simpa using h2
  unfold completedDrag
  rw [h]
  unfold onNodeDragStart onNodeDragEnd updateNodePositionOp
  dsimp only
  rw [hid, refGet_refSet]
  dsimp only
  split
  · rw [historyPush]
    dsimp only
    rw [refDelete_refSet]
  · rw [refDelete_refSet]

theorem sqrt_gt_50_iff (a b : Int) :
    (50 : ℝ) < Real.sqrt (((a : ℝ)) ^ 2 + ((b : ℝ)) ^ 2) ↔ (2500 : ℤ) < a ^ 2 + b ^ 2 := by
  rw [Real.lt_sqrt (by norm_num : (0 : ℝ) ≤ 50)]
  have h50 : ((50 : ℝ)) ^ 2 = ((2500 : ℤ) : ℝ) := by norm_num
  rw [h50]
  constructor
  · intro h
    exact_mod_cast h
  · intro h
    exact_mod_cast h

/-- Claim C3: a completed node drag pushes a history entry exactly when the
Euclidean distance between the start and end positions strictly exceeds
`MINIMUM_MOVE_BEFORE_LOG = 50`; for a drag of distance 50 or less the history
is left unchanged. -/
theorem c3_drag_threshold (nid : String) (endPos : Position) (s : EditorState)
    (node : CustomNode) (h : s.nodes.find? (fun n => n.id == nid) = some node) :
    MINIMUM_MOVE_BEFORE_LOG = 50 ∧
    ((50 : ℝ) < Real.sqrt (((endPos.x - node.position.x : ℤ) : ℝ) ^ 2
        + ((endPos.y - node.position.y : ℤ) : ℝ) ^ 2) →
      (completedDrag nid endPos s).history.undoStack
        = HistoryEntry.updateNodePositionEntry nid node.position endPos
            :: s.history.undoStack) ∧
    (Real.sqrt (((endPos.x - node.position.x : ℤ) : ℝ) ^ 2
        + ((endPos.y - node.position.y : ℤ) : ℝ) ^ 2) ≤ 50 →
      (completedDrag nid endPos s).history = s.history) := by
  rw [completedDrag_eq nid endPos s node h]
  refine ⟨rfl, ?_, ?_⟩
  · intro hgt
    have h1 : MINIMUM_MOVE_BEFORE_LOG ^ 2 < squaredDistance node.position endPos := by
      have h2 := (sqrt_gt_50_iff _ _).mp hgt
      simpa [MINIMUM_MOVE_BEFORE_LOG, squaredDistance] using h2
    simp only [if_pos h1]
  · intro hle
    have h1 : ¬ MINIMUM_MOVE_BEFORE_LOG ^ 2 < squaredDistance node.position endPos := by
      intro hc
      have h2 : (2500 : ℤ) < (endPos.x - node.position.x) ^ 2 + (endPos.y - node.position.y) ^ 2 := by
        simpa [MINIMUM_MOVE_BEFORE_LOG, squaredDistance] using hc
      have h3 := (sqrt_gt_50_iff (endPos.x - node.position.x) (endPos.y - node.position.y)).mpr h2
      linarith
    simp only [if_neg h1]

theorem c3_witness :
    (completedDrag "A" ⟨0, 51⟩ exStateA).history.undoStack
      = [HistoryEntry.updateNodePositionEntry "A" ⟨0, 0⟩ ⟨0, 51⟩] :=
  (c3_drag_threshold "A" ⟨0, 51⟩ exStateA exNodeA (by decide)).2.1
    ((sqrt_gt_50_iff _ _).mpr (by decide))

/-- Claim C2 counterexample: the claim demands a history push for every
completed drag, but a completed drag that ends where it started pushes
nothing. -/
theorem c2_counterexample :
    ¬ ∃ e rest, (completedDrag "A" ⟨0, 0⟩ exStateA).history.undoStack = e :: rest := by
  rintro ⟨e, rest, hc⟩
  have h0 : (completedDrag "A" ⟨0, 0⟩ exStateA).history.undoStack = [] := by decide
  rw [h0] at hc
  exact List.noConfusion hc

/-- Claim C2 (amended): for every completed node drag whose movement exceeds
the minimum logging distance, an UPDATE_NODE_POSITION entry is pushed that
records the position at drag start as the old position and the position at
drag end as the new position. -/
theorem c2_drag_pushes_move_entry (nid : String) (endPos : Position) (s : EditorState)
    (node : CustomNode) (h : s.nodes.find? (fun n => n.id == nid) = some node)
    (hfar : MINIMUM_MOVE_BEFORE_LOG ^ 2 < squaredDistance node.position endPos) :
    (completedDrag nid endPos s).history.undoStack
      = HistoryEntry.updateNodePositionEntry nid node.position endPos :: s.history.undoStack := by
  rw [completedDrag_eq nid endPos s node h]
  simp only [if_pos hfar]

theorem c2_witness :
    (completedDrag "A" ⟨51, 0⟩ exStateA).history.undoStack
      = [HistoryEntry.updateNodePositionEntry "A" ⟨0, 0⟩ ⟨51, 0⟩] :=
  c2_drag_pushes_move_entry "A" ⟨51, 0⟩ exStateA exNodeA (by decide) (by decide)

theorem addNode_some_eq (availableNodes : List BlockSchema) (vp : Position)
    (blockId nodeType : String) (s : EditorState) (schema : BlockSchema)
    (h : availableNodes.find? (fun b => b.id == blockId) = some schema) :
    addNode availableNodes vp blockId nodeType s =
      historyPush (HistoryEntry.addNodeEntry (newNodeFor schema blockId nodeType s.nodeId vp))
        (clearNodesStatusAndOutput
          { addNodes [newNodeFor schema blockId nodeType s.nodeId vp] s with
              nodeId := s.nodeId + 1 }) := by
  unfold addNode
  rw [h]
  rfl

theorem addNode_none_eq (availableNodes : List BlockSchema) (vp : Position)
    (blockId nodeType : String) (s : EditorState)
    (h : availableNodes.find? (fun b => b.id == blockId) = none) :
    addNode availableNodes vp blockId nodeType s = s := by
  unfold addNode
  rw [h]

/-- Claim C8: `addNode` with a block id matching no available schema is a
no-op on the whole editor state. -/
theorem c8_addNode_missing_schema_noop (availableNodes : List BlockSchema) (vp : Position)
    (blockId nodeType : String) (s : EditorState)
    (h : availableNodes.find? (fun b => b.id == blockId) = none) :
    addNode availableNodes vp blockId nodeType s = s :=
  addNode_none_eq availableNodes vp blockId nodeType s h

theorem c8_witness : addNode [exBlock] ⟨0, 0⟩ "missing" "T" exStateA = exStateA :=
  c8_addNode_missing_schema_noop [exBlock] ⟨0, 0⟩ "missing" "T" exStateA (by decide)

/-- Claim C5: for a block id matching an available schema, `addNode` adds
exactly one node, whose data copies the schema's description, categories,
input/output schemas and static-output flag, whose id is the current node-id
counter rendered as a string, whose hardcoded values and connections start
empty, and whose runtime status starts unset; the counter is bumped. -/
theorem c5_addNode_adds_configured_node (availableNodes : List BlockSchema) (vp : Position)
    (blockId nodeType : String) (s : EditorState) (schema : BlockSchema)
    (h : availableNodes.find? (fun b => b.id == blockId) = some schema) :
    (addNode availableNodes vp blockId nodeType s).nodes
        = s.nodes.map clearNode ++ [newNodeFor schema blockId nodeType s.nodeId vp] ∧
    (addNode availableNodes vp blockId nodeType s).nodeId = s.nodeId + 1 ∧
    (newNodeFor schema blockId nodeType s.nodeId vp).id = toString s.nodeId ∧
    (newNodeFor schema blockId nodeType s.nodeId vp).data.description = schema.description ∧
    (newNodeFor schema blockId nodeType s.nodeId vp).data.categories = schema.categories ∧
    (newNodeFor schema blockId nodeType s.nodeId vp).data.inputSchema = schema.inputSchema ∧
    (newNodeFor schema blockId nodeType s.nodeId vp).data.outputSchema = schema.outputSchema ∧
    (newNodeFor schema blockId nodeType s.nodeId vp).data.isOutputStatic = schema.staticOutput ∧
    (newNodeFor schema blockId nodeType s.nodeId vp).data.hardcodedValues = [] ∧
    (newNodeFor schema blockId nodeType s.nodeId vp).data.connections = [] ∧
    (newNodeFor schema blockId nodeType s.nodeId vp).data.status = none ∧
    (newNodeFor schema blockId nodeType s.nodeId vp).data.block_id = blockId := by
  rw [addNode_some_eq availableNodes vp blockId nodeType s schema h]
  refine ⟨?_, rfl, rfl, rfl, rfl, rfl, rfl, rfl, rfl, rfl, rfl, rfl⟩
  show List.map clearNode (s.nodes ++ [newNodeFor schema blockId nodeType s.nodeId vp])
      = s.nodes.map clearNode ++ [newNodeFor schema blockId nodeType s.nodeId vp]
  rw [List.map_append]
  rfl

theorem c5_witness :
    (addNode [exBlock] ⟨3, 4⟩ "b" "T" exStateA).nodes
        = [clearNode exNodeA] ++ [newNodeFor exBlock "b" "T" 1 ⟨3, 4⟩] ∧
    (addNode [exBlock] ⟨3, 4⟩ "b" "T" exStateA).nodeId = 2 ∧
    (newNodeFor exBlock "b" "T" 1 ⟨3, 4⟩).id = "1" :=
  have h := c5_addNode_adds_configured_node [exBlock] ⟨3, 4⟩ "b" "T" exStateA exBlock (by decide)
  ⟨h.1, h.2.1, h.2.2.1⟩

theorem onConnect_some_eq (g : String → String → String) (c : Connection) (s : EditorState)
    (srcNode : CustomNode) (h : s.nodes.find? (fun n => n.id == c.source) = some srcNode) :
    onConnect g c s = some (clearNodesStatusAndOutput
      (historyPush (HistoryEntry.addEdgeEntry (newEdgeFor (g c.source c.sourceHandle) srcNode c))
        (addEdges [newEdgeFor (g c.source c.sourceHandle) srcNode c] s))) := by
  unfold onConnect
  rw [h]

theorem edges_clear (s : EditorState) : (clearNodesStatusAndOutput s).edges = s.edges := rfl

theorem edges_historyPush (e : HistoryEntry) (s : EditorState) :
    (historyPush e s).edges = s.edges := rfl

/-- Claim C4: `onConnect` adds exactly one new edge, whose source,
sourceHandle, target and targetHandle are those of the connection, and whose
id is the deterministic string source_sourceHandle_target_targetHandle, so
two connections between the same handles produce the same edge id. -/
theorem c4_onConnect_adds_edge (g : String → String → String) (c : Connection)
    (s : EditorState) (srcNode : CustomNode)
    (h : s.nodes.find? (fun n => n.id == c.source) = some srcNode) :
    ((onConnect g c s).map (fun st => st.edges))
        = some (s.edges ++ [newEdgeFor (g c.source c.sourceHandle) srcNode c]) ∧
    (newEdgeFor (g c.source c.sourceHandle) srcNode c).source = c.source ∧
    (newEdgeFor (g c.source c.sourceHandle) srcNode c).sourceHandle = c.sourceHandle ∧
    (newEdgeFor (g c.source c.sourceHandle) srcNode c).target = c.target ∧
    (newEdgeFor (g c.source c.sourceHandle) srcNode c).targetHandle = c.targetHandle ∧
    (newEdgeFor (g c.source c.sourceHandle) srcNode c).id
        = c.source ++ "_" ++ c.sourceHandle ++ "_" ++ c.target ++ "_" ++ c.targetHandle ∧
    (∀ c2 : Connection, c2.source = c.source → c2.sourceHandle = c.sourceHandle →
      c2.target = c.target → c2.targetHandle = c.targetHandle →
      formatEdgeID (LinkOrConnection.conn c2) = formatEdgeID (LinkOrConnection.conn c)) := by
  refine ⟨?_, rfl, rfl, rfl, rfl, rfl, ?_⟩
  · rw [onConnect_some_eq g c s srcNode h]
    show some ((clearNodesStatusAndOutput (historyPush
        (HistoryEntry.addEdgeEntry (newEdgeFor (g c.source c.sourceHandle) srcNode c))
        (addEdges [newEdgeFor (g c.source c.sourceHandle) srcNode c] s))).edges)
      = some (s.edges ++ [newEdgeFor (g c.source c.sourceHandle) srcNode c])
    rw [edges_clear, edges_historyPush, addEdges_single]
  · intro c2 h1 h2 h3 h4
    simp [formatEdgeID, h1, h2, h3, h4]

theorem c4_witness :
    ((onConnect (fun _ _ => "red") exConnAA exStateA).map (fun st => st.edges))
        = some ([] ++ [newEdgeFor "red" exNodeA exConnAA]) ∧
    (newEdgeFor "red" exNodeA exConnAA).id = "A_h1_A_h2" :=
  have h := c4_onConnect_adds_edge (fun _ _ => "red") exConnAA exStateA exNodeA (by decide)
  ⟨h.1, h.2.2.2.2.2.1⟩

/-- Claim C10: the history is a LIFO undo/redo stack: `handleUndo` runs the
undo of the most recently pushed entry not yet undone and moves it to the
redo stack, `handleRedo` runs the redo of the most recently undone entry and
moves it back, both are no-ops on empty stacks, and pushing a new entry
discards the redoable entries. -/
theorem c10_history_lifo :
    (∀ (s : EditorState) (e : HistoryEntry) (rest : List HistoryEntry),
      s.history.undoStack = e :: rest →
        handleUndo s = { applyUndo e s with
          history := { undoStack := rest, redoStack := e :: s.history.redoStack } }) ∧
    (∀ s : EditorState, s.history.undoStack = [] → handleUndo s = s) ∧
    (∀ (s : EditorState) (e : HistoryEntry) (rest : List HistoryEntry),
      s.history.redoStack = e :: rest →
        handleRedo s = { applyRedo e s with
          history := { undoStack := e :: s.history.undoStack, redoStack := rest } }) ∧
    (∀ s : EditorState, s.history.redoStack = [] → handleRedo s = s) ∧
    (∀ (e : HistoryEntry) (s : EditorState),
      (historyPush e s).history.undoStack = e :: s.history.undoStack
        ∧ (historyPush e s).history.redoStack = []) := by
  refine ⟨?_, ?_, ?_, ?_, ?_⟩
  · intro s e rest h
    unfold handleUndo
    rw [h]
  · intro s h
    unfold handleUndo
    rw [h]
  · intro s e rest h
    unfold handleRedo
    rw [h]
  · intro s h
    unfold handleRedo
    rw [h]
  · intro e s
    exact ⟨rfl, rfl⟩

theorem c10_witness :
    handleUndo exStateH = { applyUndo (HistoryEntry.addNodeEntry exNodeA) exStateH with
        history := { undoStack := [], redoStack := [HistoryEntry.addNodeEntry exNodeA] } }
      ∧ (historyPush (HistoryEntry.addNodeEntry exNodeA) exStateA).history.redoStack = [] :=
  ⟨c10_history_lifo.1 exStateH (HistoryEntry.addNodeEntry exNodeA) [] rfl,
    (c10_history_lifo.2.2.2.2 (HistoryEntry.addNodeEntry exNodeA) exStateA).2⟩

/-- Claim C6: the only editing actions that push history entries are adding a
node (ADD_NODE), making a connection (ADD_EDGE) and finishing a sufficiently
long node drag (UPDATE_NODE_POSITION); node deletion, edge deletion,
copy/paste and status clearing leave the history untouched. -/
theorem c6_only_three_push_sites :
    (∀ (cs : List NodeChange) (s : EditorState), (onNodesChange cs s).history = s.history) ∧
    (∀ (cs : List EdgeChange) (s : EditorState), (onEdgesChange cs s).history = s.history) ∧
    (∀ (nids eids : List String) (s : EditorState),
      (deleteElements nids eids s).history = s.history) ∧
    (∀ s : EditorState, (clearNodesStatusAndOutput s).history = s.history) ∧
    (∀ s : EditorState, (onNodesDelete s).history = s.history) ∧
    (∀ (m i c : Bool) (k : KeyCommand) (now : Nat) (s : EditorState),
      (handleKeyDown m i c k now s).history = s.history) ∧
    (∀ (availableNodes : List BlockSchema) (vp : Position) (blockId nodeType : String)
        (s : EditorState),
      (addNode availableNodes vp blockId nodeType s).history.undoStack = s.history.undoStack
        ∨ ∃ e, entryType e = "ADD_NODE" ∧
            (addNode availableNodes vp blockId nodeType s).history.undoStack
              = e :: s.history.undoStack) ∧
    (∀ (g : String → String → String) (c : Connection) (s s2 : EditorState),
      onConnect g c s = some s2 →
        ∃ e, entryType e = "ADD_EDGE" ∧ s2.history.undoStack = e :: s.history.undoStack) ∧
    (∀ (nodeOpt : Option CustomNode) (s : EditorState),
      (onNodeDragEnd nodeOpt s).history.undoStack = s.history.undoStack
        ∨ ∃ e, entryType e = "UPDATE_NODE_POSITION" ∧
            (onNodeDragEnd nodeOpt s).history.undoStack = e :: s.history.undoStack) := by
  refine ⟨history_onNodesChange, history_onEdgesChange, history_deleteElements, history_clear,
    history_onNodesDelete, history_handleKeyDown, ?_, ?_, ?_⟩
  · intro availableNodes vp blockId nodeType s
    cases hfind : availableNodes.find? (fun b => b.id == blockId) with
    | none =>
      left
      rw [addNode_none_eq availableNodes vp blockId nodeType s hfind]
    | some schema =>
      right
      refine ⟨HistoryEntry.addNodeEntry (newNodeFor schema blockId nodeType s.nodeId vp), rfl, ?_⟩
      rw [addNode_some_eq availableNodes vp blockId nodeType s schema hfind]
      rfl
  · intro g c s s2 h
    cases hfind : s.nodes.find? (fun n => n.id == c.source) with
    | none =>
      rw [onConnect, hfind] at h
      exact Option.noConfusion h
    | some srcNode =>
      rw [onConnect_some_eq g c s srcNode hfind] at h
      refine ⟨HistoryEntry.addEdgeEntry (newEdgeFor (g c.source c.sourceHandle) srcNode c),
        rfl, ?_⟩
      have h2 := Option.some.inj h
      rw [← h2]
      show (historyPush (HistoryEntry.addEdgeEntry (newEdgeFor (g c.source c.sourceHandle)
          srcNode c)) (addEdges [newEdgeFor (g c.source c.sourceHandle) srcNode c]
          s)).history.undoStack = _
      rw [historyPush]
      show HistoryEntry.addEdgeEntry (newEdgeFor (g c.source c.sourceHandle) srcNode c)
          :: (addEdges [newEdgeFor (g c.source c.sourceHandle) srcNode c] s).history.undoStack = _
      rw [history_addEdges]
  · intro nodeOpt s
    cases nodeOpt with
    | none => left; rfl
    | some node =>
      cases hr : refGet s.initialPositionRef node.id with
      | none =>
        left
        unfold onNodeDragEnd
        dsimp only
        rw [hr]
      | some oldPosition =>
        unfold onNodeDragEnd
        dsimp only
        rw [hr]
        dsimp only
        split
        · right
          exact ⟨HistoryEntry.updateNodePositionEntry node.id oldPosition node.position, rfl, rfl⟩
        · left; rfl

theorem c6_witness :
    (onNodesChange [NodeChange.remove "A"] exStateA).history = exStateA.history ∧
    (deleteElements ["A"] [] exStateA).history = exStateA.history ∧
    (handleKeyDown false false true KeyCommand.pasteKey 7 exStateA).history = exStateA.history ∧
    (clearNodesStatusAndOutput exStateA).history = exStateA.history ∧
    (∃ e, entryType e = "ADD_NODE" ∧
      (addNode [exBlock] ⟨0, 0⟩ "b" "T" exStateA).history.undoStack
        = e :: exStateA.history.undoStack) ∨ True :=
  Or.inl ⟨c6_only_three_push_sites.1 [NodeChange.remove "A"] exStateA,
    c6_only_three_push_sites.2.2.1 ["A"] [] exStateA,
    c6_only_three_push_sites.2.2.2.2.2.1 false false true KeyCommand.pasteKey 7 exStateA,
    c6_only_three_push_sites.2.2.2.1 exStateA,
    (c6_only_three_push_sites.2.2.2.2.2.2.1 [exBlock] ⟨0, 0⟩ "b" "T" exStateA).resolve_left
      (by decide)⟩

theorem onEdgesChange_edges (cs : List EdgeChange) (s : EditorState) :
    (onEdgesChange cs s).edges = applyEdgeChanges cs s.edges := by
  simp only [onEdgesChange]
  (repeat' split) <;> rfl

theorem mem_applyEdgeChanges_removes (l : List String) :
    ∀ (E : List CustomEdge) (e : CustomEdge),
      e ∈ applyEdgeChanges (l.map EdgeChange.remove) E ↔ (e ∈ E ∧ ∀ i ∈ l, ¬ e.id = i) := by
  induction l with
  | nil =>
    intro E e
    simp [applyEdgeChanges]
  | cons i l ih =>
    intro E e
    have hstep : applyEdgeChanges ((i :: l).map EdgeChange.remove) E
        = applyEdgeChanges (l.map EdgeChange.remove) (applyEdgeChange (EdgeChange.remove i) E) :=
      rfl
    rw [hstep, ih]
    simp only [applyEdgeChange, List.mem_filter, List.forall_mem_cons]
    constructor
    · rintro ⟨⟨he, hne⟩, hrest⟩
      refine ⟨he, ?_, hrest⟩
      simpa using hne
    · rintro ⟨he, hne, hrest⟩
      refine ⟨⟨he, ?_⟩, hrest⟩
      simpa using hne

theorem deleteEdgesOnly_edges (ids : List String) (s : EditorState) :
    (deleteEdgesOnly ids s).edges
      = applyEdgeChanges ((ids.filter (fun i => s.edges.any (fun e => e.id == i))).map
          EdgeChange.remove) s.edges :=
  onEdgesChange_edges _ _

theorem mem_deleteEdgesOnly_edges (ids : List String) (s : EditorState) (e : CustomEdge)
    (h : e ∈ (deleteEdgesOnly ids s).edges) : e ∈ s.edges := by
  rw [deleteEdgesOnly_edges] at h
  exact ((mem_applyEdgeChanges_removes _ _ _).mp h).1

theorem mem_step_edges (E : List CustomEdge) (st : EditorState) (c : NodeChange)
    (e : CustomEdge) (h : e ∈ (removeConnectedEdgesStep E st c).edges) : e ∈ st.edges := by
  cases c with
  | remove nid => exact mem_deleteEdgesOnly_edges _ _ _ h
  | select i sel => exact h
  | positionChange i p => exact h

theorem mem_foldl_edges (E : List CustomEdge) (cs : List NodeChange) :
    ∀ (st : EditorState) (e : CustomEdge),
      e ∈ ((cs.foldl (removeConnectedEdgesStep E) st).edges) → e ∈ st.edges := by
  induction cs with
  | nil => intro st e h; exact h
  | cons c cs ih =>
    intro st e h
    rw [List.foldl_cons] at h
    exact mem_step_edges E st c e (ih _ e h)

theorem step_removes_connected (E : List CustomEdge) (st : EditorState) (nid : String)
    (e : CustomEdge) (hE : e ∈ E) (hst : e ∈ st.edges)
    (hmem : e ∈ (removeConnectedEdgesStep E st (NodeChange.remove nid)).edges) :
    ¬ (e.source = nid ∨ e.target = nid) := by
  intro htouch
  have hid : e.id ∈ (E.filter (fun ed => ed.source == nid || ed.target == nid)).map
      (fun ed => ed.id) := by
    refine List.mem_map_of_mem _ ?_
    rw [List.mem_filter]
    refine ⟨hE, ?_⟩
    rcases htouch with h1 | h1 <;> simp [h1]
  have hex : e.id ∈ ((E.filter (fun ed => ed.source == nid || ed.target == nid)).map
      (fun ed => ed.id)).filter (fun i => st.edges.any (fun ed => ed.id == i)) := by
    rw [List.mem_filter]
    refine ⟨hid, ?_⟩
    rw [List.any_eq_true]
    exact ⟨e, hst, by simp⟩
  have h2 := (mem_applyEdgeChanges_removes _ _ _).mp
    (by simpa [removeConnectedEdgesStep, deleteEdgesOnly_edges] using hmem)
  exact h2.2 e.id hex rfl

theorem foldl_removes_connected (E : List CustomEdge) (cs : List NodeChange) :
    ∀ (st : EditorState) (e : CustomEdge) (nid : String),
      NodeChange.remove nid ∈ cs →
      e ∈ ((cs.foldl (removeConnectedEdgesStep E) st).edges) →
      e ∈ E → e ∈ st.edges →
      ¬ (e.source = nid ∨ e.target = nid) := by
  induction cs with
  | nil =>
    intro st e nid hmem
    exact absurd hmem (List.not_mem_nil _)
  | cons c cs ih =>
    intro st e nid hmem hres hE hst
    rw [List.foldl_cons] at hres
    have hst2 : e ∈ (removeConnectedEdgesStep E st c).edges := mem_foldl_edges E cs _ e hres
    rcases List.mem_cons.mp hmem with hc | hc
    · rw [← hc] at hst2
      exact step_removes_connected E st nid e hE hst hst2
    · exact ih _ e nid hc hres hE hst2

theorem nodeIds_onEdgesChange (cs : List EdgeChange) (s : EditorState) :
    ((onEdgesChange cs s).nodes).map (fun n => n.id) = s.nodes.map (fun n => n.id) := by
  simp only [onEdgesChange]
  (repeat' split) <;> simp only [clearNodesStatusAndOutput, List.map_map] <;> rfl

theorem nodeIds_step (E : List CustomEdge) (st : EditorState) (c : NodeChange) :
    ((removeConnectedEdgesStep E st c).nodes).map (fun n => n.id)
      = st.nodes.map (fun n => n.id) := by
  cases c with
  | remove nid => exact nodeIds_onEdgesChange _ _
  | select i sel => rfl
  | positionChange i p => rfl

theorem nodeIds_foldl (E : List CustomEdge) (cs : List NodeChange) :
    ∀ st : EditorState,
      ((cs.foldl (removeConnectedEdgesStep E) st).nodes).map (fun n => n.id)
        = st.nodes.map (fun n => n.id) := by
  induction cs with
  | nil => intro st; rfl
  | cons c cs ih =>
    intro st
    rw [List.foldl_cons, ih, nodeIds_step]

theorem applyNodeChanges_id_mem (cs : List NodeChange) :
    ∀ (nodes : List CustomNode) (nid : String),
      (∀ rid, NodeChange.remove rid ∈ cs → nid ≠ rid) →
      (∃ n ∈ nodes, n.id = nid) →
      ∃ n ∈ applyNodeChanges cs nodes, n.id = nid := by
  induction cs with
  | nil =>
    intro nodes nid h hex
    simpa [applyNodeChanges] using hex
  | cons c cs ih =>
    intro nodes nid h hex
    have hstep : applyNodeChanges (c :: cs) nodes
        = applyNodeChanges cs (applyNodeChange c nodes) := rfl
    rw [hstep]
    apply ih
    · intro rid hrid
      exact h rid (List.mem_cons_of_mem _ hrid)
    · obtain ⟨n, hn, hnid⟩ := hex
      cases c with
      | remove rid =>
        refine ⟨n, ?_, hnid⟩
        simp only [applyNodeChange]
        rw [List.mem_filter]
        refine ⟨hn, ?_⟩
        have hne : nid ≠ rid := h rid (List.mem_cons_self _ _)
        simp [hnid, hne]
      | select i sel =>
        simp only [applyNodeChange]
        refine ⟨if n.id = i then { n with selected := sel } else n,
          List.mem_map_of_mem _ hn, ?_⟩
        split <;> simp [hnid]
      | positionChange i p =>
        simp only [applyNodeChange]
        refine ⟨if n.id = i then { n with position := p } else n,
          List.mem_map_of_mem _ hn, ?_⟩
        split <;> simp [hnid]

theorem exists_id_of_map_eq (l1 l2 : List CustomNode)
    (h : l1.map (fun n => n.id) = l2.map (fun n => n.id)) (x : String)
    (hex : ∃ n ∈ l2, n.id = x) : ∃ n ∈ l1, n.id = x := by
  obtain ⟨n, hn, hx⟩ := hex
  have hmem : x ∈ l2.map (fun n => n.id) := List.mem_map.mpr ⟨n, hn, hx⟩
  rw [← h] at hmem
  obtain ⟨m, hm, hmx⟩ := List.mem_map.mp hmem
  exact ⟨m, hm, hmx⟩

/-- Claim C9: after `onNodesChange` processes a batch of changes, no surviving
edge has a removed node as source or target; in particular, if every edge
endpoint referenced an existing node before, the same holds afterwards (no
dangling edges). -/
theorem c9_no_dangling_edges (cs : List NodeChange) (s : EditorState) :
    (∀ e, e ∈ (onNodesChange cs s).edges → ∀ nid, NodeChange.remove nid ∈ cs →
        e.source ≠ nid ∧ e.target ≠ nid) ∧
    ((∀ e, e ∈ s.edges →
        (∃ n ∈ s.nodes, n.id = e.source) ∧ (∃ n ∈ s.nodes, n.id = e.target)) →
      ∀ e, e ∈ (onNodesChange cs s).edges →
        (∃ n ∈ (onNodesChange cs s).nodes, n.id = e.source)
          ∧ (∃ n ∈ (onNodesChange cs s).nodes, n.id = e.target)) := by
  have hsub : ∀ e, e ∈ (onNodesChange cs s).edges → e ∈ s.edges := by
    intro e he
    unfold onNodesChange at he
    dsimp only at he
    exact mem_foldl_edges s.edges cs { s with nodes := applyNodeChanges cs s.nodes } e he
  have hmain : ∀ e, e ∈ (onNodesChange cs s).edges → ∀ nid, NodeChange.remove nid ∈ cs →
      ¬ (e.source = nid ∨ e.target = nid) := by
    intro e he nid hmem
    have hE : e ∈ s.edges := hsub e he
    unfold onNodesChange at he
    dsimp only at he
    exact foldl_removes_connected s.edges cs { s with nodes := applyNodeChanges cs s.nodes }
      e nid hmem he hE hE
  constructor
  · intro e he nid hmem
    have h := hmain e he nid hmem
    exact ⟨fun hc => h (Or.inl hc), fun hc => h (Or.inr hc)⟩
  · intro hinv e he
    have hE := hsub e he
    have hids : ((onNodesChange cs s).nodes).map (fun n => n.id)
        = (applyNodeChanges cs s.nodes).map (fun n => n.id) := by
      unfold onNodesChange
      dsimp only
      exact nodeIds_foldl s.edges cs _
    constructor
    · refine exists_id_of_map_eq _ _ hids e.source ?_
      apply applyNodeChanges_id_mem
      · intro rid hrid hc
        exact hmain e he rid hrid (Or.inl hc)
      · exact (hinv e hE).1
    · refine exists_id_of_map_eq _ _ hids e.target ?_
      apply applyNodeChanges_id_mem
      · intro rid hrid hc
        exact hmain e he rid hrid (Or.inr hc)
      · exact (hinv e hE).2

theorem map_clearNode_idem (l : List CustomNode) :
    (l.map clearNode).map clearNode = l.map clearNode := by
  rw [List.map_map]
  exact List.map_congr_left (fun a ha => clearNode_clearNode a)

theorem c1aux_update (nid : String) (endPos : Position) (s : EditorState) (node : CustomNode)
    (h : s.nodes.find? (fun n => n.id == nid) = some node)
    (hpos : ∀ n ∈ s.nodes, n.id = nid → n.position = node.position) :
    (applyUndo (HistoryEntry.updateNodePositionEntry nid node.position endPos)
        (completedDrag nid endPos s)).nodes = s.nodes ∧
    applyRedo (HistoryEntry.updateNodePositionEntry nid node.position endPos)
        (applyUndo (HistoryEntry.updateNodePositionEntry nid node.position endPos)
          (completedDrag nid endPos s))
      = completedDrag nid endPos s := by
  have hgnodes : (completedDrag nid endPos s).nodes
      = List.map (fun n => if n.id = nid then { n with position := endPos } else n) s.nodes := by
    rw [completedDrag_eq nid endPos s node h]
    rfl
  have hnodes : List.map (fun n => if n.id = nid then { n with position := node.position } else n)
      (List.map (fun n => if n.id = nid then { n with position := endPos } else n) s.nodes)
      = s.nodes := by
    rw [List.map_map]
    have hpt : ∀ n ∈ s.nodes,
        ((fun n => if n.id = nid then { n with position := node.position } else n) ∘
          (fun n => if n.id = nid then { n with position := endPos } else n)) n = n := by
      intro n hn
      by_cases hid : n.id = nid
      · simp only [Function.comp, if_pos hid]
        rw [← hpos n hn hid]
      · simp only [Function.comp, if_neg hid, if_neg hid]
    calc List.map ((fun n => if n.id = nid then { n with position := node.position } else n) ∘
            (fun n => if n.id = nid then { n with position := endPos } else n)) s.nodes
        = List.map id s.nodes := List.map_congr_left hpt
      _ = s.nodes := List.map_id s.nodes
  have hu1 : (applyUndo (HistoryEntry.updateNodePositionEntry nid node.position endPos)
      (completedDrag nid endPos s)).nodes = s.nodes := by
    show List.map (fun n => if n.id = nid then { n with position := node.position } else n)
        (completedDrag nid endPos s).nodes = s.nodes
    rw [hgnodes]
    exact hnodes
  refine ⟨hu1, ?_⟩
  apply EditorState.ext
  · show List.map (fun n => if n.id = nid then { n with position := endPos } else n)
        (applyUndo (HistoryEntry.updateNodePositionEntry nid node.position endPos)
          (completedDrag nid endPos s)).nodes
      = (completedDrag nid endPos s).nodes
    rw [hu1, hgnodes]
  · rfl
  · rfl
  · rfl
  · rfl
  · rfl
  · rfl
  · rfl

theorem mem_map_clearNode_id (L : List CustomNode) (x : String)
    (h : ∀ n ∈ L, n.id ≠ x) : ∀ m ∈ L.map clearNode, m.id ≠ x := by
  intro m hm
  obtain ⟨b, hb, hbm⟩ := List.mem_map.mp hm
  rw [← hbm]
  exact h b hb

theorem deleteElements_fresh_node (N : CustomNode) (s0 : EditorState) (L : List CustomNode)
    (hnodes : s0.nodes = L ++ [N])
    (hids : ∀ m ∈ L, m.id ≠ N.id)
    (hedges : ∀ e ∈ s0.edges, e.source ≠ N.id ∧ e.target ≠ N.id)
    (hLclear : L.map clearNode = L) :
    deleteElements [N.id] [] s0 = { s0 with nodes := L } := by
  have cm1 : s0.nodes.filter (fun n => ([N.id] : List String).contains n.id) = [N] := by
    rw [hnodes, List.filter_append]
    have h1 : L.filter (fun n => ([N.id] : List String).contains n.id) = [] := by
      rw [List.filter_eq_nil_iff]
      intro a ha
      simp [hids a ha]
    have h2 : ([N] : List CustomNode).filter
        (fun n => ([N.id] : List String).contains n.id) = [N] := by
      simp
    rw [h1, h2, List.nil_append]
  have cm2 : s0.edges.filter (fun e => ([] : List String).contains e.id) = [] := by
    simp
  have cm3 : s0.edges.filter
      (fun e => ([N] : List CustomNode).any (fun n => n.id == e.source || n.id == e.target))
        = [] := by
    rw [List.filter_eq_nil_iff]
    intro a ha
    simp only [List.any_cons, List.any_nil, Bool.or_false, Bool.or_eq_true, beq_iff_eq,
      not_or]
    exact ⟨Ne.symm (hedges a ha).1, Ne.symm (hedges a ha).2⟩
  unfold deleteElements
  dsimp only
  rw [cm1, cm2, cm3]
  have hlen : 0 < ([N] : List CustomNode).length := by simp
  rw [if_pos hlen]
  have hmapnil : (List.map (fun e => EdgeChange.remove e.id)
      (([] : List CustomEdge)
        ++ List.filter (fun e => !(([] : List CustomEdge).any (fun m => m.id == e.id))) []))
      = [] := by simp
  rw [hmapnil, onEdgesChange_nil]
  have hONC : onNodesChange (List.map (fun n => NodeChange.remove n.id) [N]) s0
      = { s0 with nodes := L } := by
    show onNodesChange [NodeChange.remove N.id] s0 = _
    unfold onNodesChange
    dsimp only
    have happ : applyNodeChanges [NodeChange.remove N.id] s0.nodes = L := by
      show List.filter (fun n => !(n.id == N.id)) s0.nodes = L
      rw [hnodes, List.filter_append]
      have h1 : L.filter (fun n => !(n.id == N.id)) = L := by
        rw [List.filter_eq_self]
        intro a ha
        simp [hids a ha]
      have h2 : ([N] : List CustomNode).filter (fun n => !(n.id == N.id)) = [] := by simp
      rw [h1, h2, List.append_nil]
    rw [happ]
    show removeConnectedEdgesStep s0.edges { s0 with nodes := L } (NodeChange.remove N.id) = _
    unfold removeConnectedEdgesStep
    dsimp only
    have cm5 : s0.edges.filter (fun e => e.source == N.id || e.target == N.id) = [] := by
      rw [List.filter_eq_nil_iff]
      intro a ha
      simp only [Bool.or_eq_true, beq_iff_eq, not_or]
      exact ⟨(hedges a ha).1, (hedges a ha).2⟩
    rw [cm5]
    show deleteEdgesOnly [] { s0 with nodes := L } = _
    rw [deleteEdgesOnly_nil]
  rw [hONC]
  show clearNodesStatusAndOutput { s0 with nodes := L } = _
  unfold clearNodesStatusAndOutput
  dsimp only
  rw [hLclear]

theorem c1aux_addnode (availableNodes : List BlockSchema) (vp : Position)
    (blockId nodeType : String) (s : EditorState) (schema : BlockSchema)
    (h : availableNodes.find? (fun b => b.id == blockId) = some schema)
    (hid : ∀ n ∈ s.nodes, n.id ≠ toString s.nodeId)
    (hedge : ∀ e ∈ s.edges, e.source ≠ toString s.nodeId ∧ e.target ≠ toString s.nodeId) :
    (applyUndo (HistoryEntry.addNodeEntry (newNodeFor schema blockId nodeType s.nodeId vp))
        (addNode availableNodes vp blockId nodeType s)).nodes = s.nodes.map clearNode ∧
    (applyUndo (HistoryEntry.addNodeEntry (newNodeFor schema blockId nodeType s.nodeId vp))
        (addNode availableNodes vp blockId nodeType s)).edges = s.edges ∧
    applyRedo (HistoryEntry.addNodeEntry (newNodeFor schema blockId nodeType s.nodeId vp))
        (applyUndo (HistoryEntry.addNodeEntry (newNodeFor schema blockId nodeType s.nodeId vp))
          (addNode availableNodes vp blockId nodeType s))
      = addNode availableNodes vp blockId nodeType s := by
  set N := newNodeFor schema blockId nodeType s.nodeId vp with hN
  have hR : addNode availableNodes vp blockId nodeType s
      = { s with
          nodes := s.nodes.map clearNode ++ [N],
          nodeId := s.nodeId + 1,
          history := ⟨HistoryEntry.addNodeEntry N :: s.history.undoStack, []⟩ } := by
    rw [addNode_some_eq availableNodes vp blockId nodeType s schema h]
    apply EditorState.ext
    · show List.map clearNode (s.nodes ++ [N]) = s.nodes.map clearNode ++ [N]
      rw [List.map_append]
      rfl
    · rfl
    · rfl
    · rfl
    · rfl
    · rfl
    · rfl
    · rfl
  have hids : ∀ m ∈ s.nodes.map clearNode, m.id ≠ N.id :=
    mem_map_clearNode_id s.nodes (toString s.nodeId) hid
  have hedges : ∀ e ∈ ({ s with
        nodes := s.nodes.map clearNode ++ [N],
        nodeId := s.nodeId + 1,
        history := ⟨HistoryEntry.addNodeEntry N :: s.history.undoStack, []⟩ } : EditorState).edges,
      e.source ≠ N.id ∧ e.target ≠ N.id := hedge
  have hdel := deleteElements_fresh_node N
    { s with
      nodes := s.nodes.map clearNode ++ [N],
      nodeId := s.nodeId + 1,
      history := ⟨HistoryEntry.addNodeEntry N :: s.history.undoStack, []⟩ }
    (s.nodes.map clearNode) rfl hids hedges (map_clearNode_idem s.nodes)
  rw [hR]
  simp only [applyUndo, applyRedo]
  rw [hdel]
  refine ⟨rfl, rfl, ?_⟩
  apply EditorState.ext <;> rfl

theorem deleteElements_fresh_edge (E : CustomEdge) (s0 : EditorState) (Ed : List CustomEdge)
    (hedges : s0.edges = Ed ++ [E])
    (hids : ∀ d ∈ Ed, d.id ≠ E.id) :
    deleteElements [] [E.id] s0
      = clearNodesStatusAndOutput { s0 with
          edges := Ed,
          nodes := s0.nodes.map (dropConnFor E.id) } := by
  have cmN : s0.nodes.filter (fun n => ([] : List String).contains n.id) = [] := by simp
  have cmE : s0.edges.filter (fun e => ([E.id] : List String).contains e.id) = [E] := by
    rw [hedges, List.filter_append]
    have h1 : Ed.filter (fun e => ([E.id] : List String).contains e.id) = [] := by
      rw [List.filter_eq_nil_iff]
      intro a ha
      simp [hids a ha]
    have h2 : ([E] : List CustomEdge).filter
        (fun e => ([E.id] : List String).contains e.id) = [E] := by
      simp
    rw [h1, h2, List.nil_append]
  unfold deleteElements
  dsimp only
  rw [cmN, cmE]
  have cmC : s0.edges.filter
      (fun e => ([] : List CustomNode).any (fun n => n.id == e.source || n.id == e.target))
        = [] := by
    simp
  rw [cmC]
  have cmR : (([E] : List CustomEdge)
      ++ (([] : List CustomEdge).filter
        (fun e => !(([E] : List CustomEdge).any (fun m => m.id == e.id))))) = [E] := by
    simp
  rw [cmR]
  rw [if_neg (by simp : ¬ 0 < ([] : List CustomNode).length)]
  show onNodesChange (List.map (fun (n : CustomNode) => NodeChange.remove n.id) [])
      (onEdgesChange (List.map (fun (e : CustomEdge) => EdgeChange.remove e.id) [E]) s0) = _
  rw [show List.map (fun (n : CustomNode) => NodeChange.remove n.id) [] = [] from rfl]
  rw [onNodesChange_nil]
  rw [show List.map (fun (e : CustomEdge) => EdgeChange.remove e.id) [E]
      = [EdgeChange.remove E.id] from rfl]
  rw [onEdgesChange_remove_single]
  have hfil : s0.edges.filter (fun e => !(e.id == E.id)) = Ed := by
    rw [hedges, List.filter_append]
    have h1 : Ed.filter (fun e => !(e.id == E.id)) = Ed := by
      rw [List.filter_eq_self]
      intro a ha
      simp [hids a ha]
    have h2 : ([E] : List CustomEdge).filter (fun e => !(e.id == E.id)) = [] := by simp
    rw [h1, h2, List.append_nil]
  rw [hfil]

theorem c1aux_addedge (g : String → String → String) (c : Connection) (s : EditorState)
    (srcNode : CustomNode)
    (h : s.nodes.find? (fun n => n.id == c.source) = some srcNode)
    (hfresh : ∀ ed ∈ s.edges, ed.id ≠ (newEdgeFor (g c.source c.sourceHandle) srcNode c).id)
    (hconn : ∀ n ∈ s.nodes, ∀ conn ∈ n.data.connections,
      conn.edge_id ≠ (newEdgeFor (g c.source c.sourceHandle) srcNode c).id) :
    (applyUndo (HistoryEntry.addEdgeEntry (newEdgeFor (g c.source c.sourceHandle) srcNode c))
        ((onConnect g c s).getD s)).edges = s.edges ∧
    (applyUndo (HistoryEntry.addEdgeEntry (newEdgeFor (g c.source c.sourceHandle) srcNode c))
        ((onConnect g c s).getD s)).nodes = s.nodes.map clearNode ∧
    applyRedo (HistoryEntry.addEdgeEntry (newEdgeFor (g c.source c.sourceHandle) srcNode c))
        (applyUndo (HistoryEntry.addEdgeEntry (newEdgeFor (g c.source c.sourceHandle) srcNode c))
          ((onConnect g c s).getD s))
      = (onConnect g c s).getD s := by
  set E := newEdgeFor (g c.source c.sourceHandle) srcNode c with hE
  have hS1 : (onConnect g c s).getD s = { s with
      edges := s.edges ++ [E],
      nodes := (s.nodes.map (appendConnFor E)).map clearNode,
      history := ⟨HistoryEntry.addEdgeEntry E :: s.history.undoStack, []⟩ } := by
    rw [onConnect_some_eq g c s srcNode h]
    show clearNodesStatusAndOutput (historyPush (HistoryEntry.addEdgeEntry E)
        (addEdges [E] s)) = _
    rw [addEdges_single]
    apply EditorState.ext <;> rfl
  have hdel := deleteElements_fresh_edge E
    { s with
      edges := s.edges ++ [E],
      nodes := (s.nodes.map (appendConnFor E)).map clearNode,
      history := ⟨HistoryEntry.addEdgeEntry E :: s.history.undoStack, []⟩ }
    s.edges rfl hfresh
  have hnodes2 : List.map clearNode (List.map (dropConnFor E.id)
      ((s.nodes.map (appendConnFor E)).map clearNode)) = s.nodes.map clearNode := by
    rw [List.map_map, List.map_map, List.map_map]
    apply List.map_congr_left
    intro a ha
    show clearNode (dropConnFor E.id (clearNode (appendConnFor E a))) = clearNode a
    unfold clearNode dropConnFor appendConnFor
    dsimp only
    have hc : (a.data.connections ++ [connOfEdge E]).filter
        (fun conn => !(conn.edge_id == E.id)) = a.data.connections := by
      rw [List.filter_append]
      have h1 : a.data.connections.filter (fun conn => !(conn.edge_id == E.id))
          = a.data.connections := by
        rw [List.filter_eq_self]
        intro x hx
        simp [hconn a ha x hx]
      have h2 : ([connOfEdge E] : List NodeConnection).filter
          (fun conn => !(conn.edge_id == E.id)) = [] := by
        simp [connOfEdge]
      rw [h1, h2, List.append_nil]
    rw [hc]
  have hu : clearNodesStatusAndOutput { ({ s with
      edges := s.edges ++ [E],
      nodes := (s.nodes.map (appendConnFor E)).map clearNode,
      history := ⟨HistoryEntry.addEdgeEntry E :: s.history.undoStack, []⟩ } : EditorState) with
        edges := s.edges,
        nodes := ((s.nodes.map (appendConnFor E)).map clearNode).map (dropConnFor E.id) }
      = { s with
          edges := s.edges,
          nodes := s.nodes.map clearNode,
          history := ⟨HistoryEntry.addEdgeEntry E :: s.history.undoStack, []⟩ } := by
    apply EditorState.ext
    · show List.map clearNode (((s.nodes.map (appendConnFor E)).map clearNode).map
        (dropConnFor E.id)) = s.nodes.map clearNode
      rw [show ((s.nodes.map (appendConnFor E)).map clearNode).map (dropConnFor E.id)
          = List.map (dropConnFor E.id) ((s.nodes.map (appendConnFor E)).map clearNode)
          from rfl]
      exact hnodes2
    · rfl
    · rfl
    · rfl
    · rfl
    · rfl
    · rfl
    · rfl
  rw [hS1]
  simp only [applyUndo, applyRedo]
  rw [hdel, hu]
  refine ⟨rfl, rfl, ?_⟩
  rw [addEdges_single]
  apply EditorState.ext
  · show List.map (appendConnFor E) (s.nodes.map clearNode)
      = (s.nodes.map (appendConnFor E)).map clearNode
    rw [List.map_map, List.map_map]
    exact List.map_congr_left (fun a ha => rfl)
  · rfl
  · rfl
  · rfl
  · rfl
  · rfl
  · rfl
  · rfl

/-- Claim C1: every entry the editor pushes (ADD_NODE from `addNode`,
ADD_EDGE from `onConnect`, UPDATE_NODE_POSITION from a completed drag) is
reversible: its undo removes the recorded operation's effect on the graph
(deletes the added node, deletes the added edge, or restores the node's old
position), and its redo after undo restores exactly the state that held
immediately after the original operation. The freshness hypotheses state that
the added node's id (resp. edge id) is not already in use. -/
theorem c1_entries_reversible :
    (∀ (availableNodes : List BlockSchema) (vp : Position) (blockId nodeType : String)
        (s : EditorState) (schema : BlockSchema),
      availableNodes.find? (fun b => b.id == blockId) = some schema →
      (∀ n ∈ s.nodes, n.id ≠ toString s.nodeId) →
      (∀ e ∈ s.edges, e.source ≠ toString s.nodeId ∧ e.target ≠ toString s.nodeId) →
      (applyUndo (HistoryEntry.addNodeEntry (newNodeFor schema blockId nodeType s.nodeId vp))
          (addNode availableNodes vp blockId nodeType s)).nodes = s.nodes.map clearNode ∧
      (applyUndo (HistoryEntry.addNodeEntry (newNodeFor schema blockId nodeType s.nodeId vp))
          (addNode availableNodes vp blockId nodeType s)).edges = s.edges ∧
      applyRedo (HistoryEntry.addNodeEntry (newNodeFor schema blockId nodeType s.nodeId vp))
          (applyUndo (HistoryEntry.addNodeEntry (newNodeFor schema blockId nodeType s.nodeId vp))
            (addNode availableNodes vp blockId nodeType s))
        = addNode availableNodes vp blockId nodeType s) ∧
    (∀ (g : String → String → String) (c : Connection) (s : EditorState)
        (srcNode : CustomNode),
      s.nodes.find? (fun n => n.id == c.source) = some srcNode →
      (∀ ed ∈ s.edges, ed.id ≠ (newEdgeFor (g c.source c.sourceHandle) srcNode c).id) →
      (∀ n ∈ s.nodes, ∀ conn ∈ n.data.connections,
        conn.edge_id ≠ (newEdgeFor (g c.source c.sourceHandle) srcNode c).id) →
      (applyUndo (HistoryEntry.addEdgeEntry (newEdgeFor (g c.source c.sourceHandle) srcNode c))
          ((onConnect g c s).getD s)).edges = s.edges ∧
      (applyUndo (HistoryEntry.addEdgeEntry (newEdgeFor (g c.source c.sourceHandle) srcNode c))
          ((onConnect g c s).getD s)).nodes = s.nodes.map clearNode ∧
      applyRedo (HistoryEntry.addEdgeEntry (newEdgeFor (g c.source c.sourceHandle) srcNode c))
          (applyUndo (HistoryEntry.addEdgeEntry (newEdgeFor (g c.source c.sourceHandle)
            srcNode c)) ((onConnect g c s).getD s))
        = (onConnect g c s).getD s) ∧
    (∀ (nid : String) (endPos : Position) (s : EditorState) (node : CustomNode),
      s.nodes.find? (fun n => n.id == nid) = some node →
      (∀ n ∈ s.nodes, n.id = nid → n.position = node.position) →
      (applyUndo (HistoryEntry.updateNodePositionEntry nid node.position endPos)
          (completedDrag nid endPos s)).nodes = s.nodes ∧
      applyRedo (HistoryEntry.updateNodePositionEntry nid node.position endPos)
          (applyUndo (HistoryEntry.updateNodePositionEntry nid node.position endPos)
            (completedDrag nid endPos s))
        = completedDrag nid endPos s) :=
  ⟨fun availableNodes vp blockId nodeType s schema h hid hedge =>
      c1aux_addnode availableNodes vp blockId nodeType s schema h hid hedge,
    fun g c s srcNode h hfresh hconn => c1aux_addedge g c s srcNode h hfresh hconn,
    fun nid endPos s node h hpos => c1aux_update nid endPos s node h hpos⟩

theorem c1_witness :
    applyRedo (HistoryEntry.addNodeEntry (newNodeFor exBlock "b" "T" 1 ⟨3, 4⟩))
        (applyUndo (HistoryEntry.addNodeEntry (newNodeFor exBlock "b" "T" 1 ⟨3, 4⟩))
          (addNode [exBlock] ⟨3, 4⟩ "b" "T" exStateA))
      = addNode [exBlock] ⟨3, 4⟩ "b" "T" exStateA ∧
    applyRedo (HistoryEntry.addEdgeEntry (newEdgeFor "red" exNodeA exConnAA))
        (applyUndo (HistoryEntry.addEdgeEntry (newEdgeFor "red" exNodeA exConnAA))
          ((onConnect (fun _ _ => "red") exConnAA exStateA).getD exStateA))
      = (onConnect (fun _ _ => "red") exConnAA exStateA).getD exStateA ∧
    applyRedo (HistoryEntry.updateNodePositionEntry "A" ⟨0, 0⟩ ⟨51, 0⟩)
        (applyUndo (HistoryEntry.updateNodePositionEntry "A" ⟨0, 0⟩ ⟨51, 0⟩)
          (completedDrag "A" ⟨51, 0⟩ exStateA))
      = completedDrag "A" ⟨51, 0⟩ exStateA :=
  ⟨(c1_entries_reversible.1 [exBlock] ⟨3, 4⟩ "b" "T" exStateA exBlock (by decide) (by decide)
      (by decide)).2.2,
    (c1_entries_reversible.2.1 (fun _ _ => "red") exConnAA exStateA exNodeA (by decide)
      (by decide) (by decide)).2.2,
    (c1_entries_reversible.2.2 "A" ⟨51, 0⟩ exStateA exNodeA (by decide) (by decide)).2⟩

theorem filterMap_add_of_map_add (es : List CustomEdge) :
    List.filterMap (fun c => match c with | EdgeChange.add e => some e | _ => none)
      (es.map EdgeChange.add) = es := by
  induction es with
  | nil => rfl
  | cons e es ih => simp only [List.map_cons, List.filterMap_cons, ih]

theorem filterMap_remove_of_map_add (es : List CustomEdge) :
    List.filterMap (fun c => match c with | EdgeChange.remove i => some i | _ => none)
      (es.map EdgeChange.add) = [] := by
  induction es with
  | nil => rfl
  | cons e es ih => simp only [List.map_cons, List.filterMap_cons, ih]

theorem filterMap_replace_of_map_add (es : List CustomEdge) :
    List.filterMap (fun c => match c with | EdgeChange.replace e => some e | _ => none)
      (es.map EdgeChange.add) = [] := by
  induction es with
  | nil => rfl
  | cons e es ih => simp only [List.map_cons, List.filterMap_cons, ih]

theorem applyEdgeChanges_adds (es : List CustomEdge) :
    ∀ E : List CustomEdge, applyEdgeChanges (es.map EdgeChange.add) E = E ++ es := by
  induction es with
  | nil => intro E; simp [applyEdgeChanges]
  | cons e es ih =>
    intro E
    have hstep : applyEdgeChanges ((e :: es).map EdgeChange.add) E
        = applyEdgeChanges (es.map EdgeChange.add) (E ++ [e]) := rfl
    rw [hstep, ih, List.append_assoc]
    rfl

theorem appendConnsFor_nil (n : CustomNode) : appendConnsFor [] n = n := by
  cases n with
  | mk i t p d sel =>
    cases d
    simp [appendConnsFor]

theorem addEdges_eq (es : List CustomEdge) (s : EditorState) :
    addEdges es s = { s with
      edges := s.edges ++ es,
      nodes := s.nodes.map (appendConnsFor es) } := by
  cases es with
  | nil =>
    apply EditorState.ext
    · show s.nodes = List.map (appendConnsFor []) s.nodes
      rw [List.map_congr_left (fun (a : CustomNode) _ => appendConnsFor_nil a)]
      rw [List.map_id']
    · show s.edges = s.edges ++ []
      rw [List.append_nil]
    · rfl
    · rfl
    · rfl
    · rfl
    · rfl
    · rfl
  | cons e0 es0 =>
    unfold addEdges onEdgesChange
    dsimp only
    rw [filterMap_add_of_map_add, filterMap_remove_of_map_add, filterMap_replace_of_map_add,
      applyEdgeChanges_adds]
    rw [if_pos (Or.inl (by simp : 0 < (e0 :: es0).length))]
    rw [if_neg (by simp : ¬ 0 < ([] : List String).length)]
    rw [if_neg (by simp : ¬ 0 < ([] : List CustomEdge).length)]
    apply EditorState.ext
    · apply List.map_congr_left
      intro a ha
      simp [appendConnsFor]
    · rfl
    · rfl
    · rfl
    · rfl
    · rfl
    · rfl
    · rfl

theorem pasteClipboard_eq (now : Nat) (s : EditorState) (h : 0 < s.copiedNodes.length) :
    pasteClipboard now s = addEdges (pastedEdgesOf s.copiedNodes s.copiedEdges s.nodeId now)
      { s with
        nodes := s.nodes.map (fun n => { n with selected := false })
          ++ pastedNodesOf s.copiedNodes s.nodeId,
        nodeId := s.nodeId + s.copiedNodes.length } := by
  unfold pasteClipboard
  rw [if_pos h]
  rfl

/-- Claim C7 counterexample: with one stored node and one stored edge, the
pre-existing node is not left "otherwise unchanged" by paste — its
`data.connections` gains an entry for the pasted edge. -/
theorem c7_counterexample :
    ¬ ((handleKeyDown false false true KeyCommand.pasteKey 7 exStateC7).nodes.head?
        = some { exNodeA with selected := false }) := by
  decide

/-- Claim C7 (amended): copy stores exactly the selected nodes and edges and
changes nothing else; paste with a non-empty stored node set adds, for each
stored node, one node with a fresh counter-based id, position offset by
(20, 20) and status/output cleared, appends the remapped pasted edges, bumps
the id counter, deselects the pre-existing nodes, and — because added edges
are propagated into every node's connection bookkeeping — extends each node's
`data.connections` with entries for the pasted edges; with a modal open or
focus on an input field the handler is a no-op. -/
theorem c7_copy_paste_amended (s : EditorState) (now : Nat) :
    ((handleKeyDown false false true KeyCommand.copyKey now s).copiedNodes
        = s.nodes.filter (fun n => n.selected) ∧
      (handleKeyDown false false true KeyCommand.copyKey now s).copiedEdges
        = s.edges.filter (fun e => e.selected) ∧
      (handleKeyDown false false true KeyCommand.copyKey now s).nodes = s.nodes ∧
      (handleKeyDown false false true KeyCommand.copyKey now s).edges = s.edges) ∧
    (0 < s.copiedNodes.length →
      (handleKeyDown false false true KeyCommand.pasteKey now s).nodes
          = (s.nodes.map (fun (n : CustomNode) => { n with selected := false })
              ++ pastedNodesOf s.copiedNodes s.nodeId).map
              (appendConnsFor (pastedEdgesOf s.copiedNodes s.copiedEdges s.nodeId now)) ∧
      (handleKeyDown false false true KeyCommand.pasteKey now s).edges
          = s.edges ++ pastedEdgesOf s.copiedNodes s.copiedEdges s.nodeId now ∧
      (handleKeyDown false false true KeyCommand.pasteKey now s).nodeId
          = s.nodeId + s.copiedNodes.length) ∧
    (∀ (i : Nat) (h1 : i < s.copiedNodes.length)
        (h2 : i < (pastedNodesOf s.copiedNodes s.nodeId).length),
      (pastedNodesOf s.copiedNodes s.nodeId).get ⟨i, h2⟩
        = pastedNodeShape s.nodeId i (s.copiedNodes.get ⟨i, h1⟩)) ∧
    (handleKeyDown true false true KeyCommand.copyKey now s = s ∧
      handleKeyDown false true true KeyCommand.pasteKey now s = s) := by
  refine ⟨⟨rfl, rfl, rfl, rfl⟩, ?_, ?_, rfl, rfl⟩
  · intro h
    have hp : handleKeyDown false false true KeyCommand.pasteKey now s
        = pasteClipboard now s := rfl
    rw [hp, pasteClipboard_eq now s h, addEdges_eq]
    exact ⟨rfl, rfl, rfl⟩
  · intro i h1 h2
    simp [pastedNodesOf, pastedNodeShape, List.get_eq_getElem, List.getElem_map,
      List.getElem_enum]

theorem c7_witness :
    (handleKeyDown false false true KeyCommand.pasteKey 7 exStateC7).edges
        = exStateC7.edges
          ++ pastedEdgesOf exStateC7.copiedNodes exStateC7.copiedEdges exStateC7.nodeId 7 ∧
    (handleKeyDown false false true KeyCommand.pasteKey 7 exStateC7).nodeId
        = exStateC7.nodeId + exStateC7.copiedNodes.length ∧
    (pastedNodesOf exStateC7.copiedNodes exStateC7.nodeId).get ⟨0, by decide⟩
        = pastedNodeShape exStateC7.nodeId 0 (exStateC7.copiedNodes.get ⟨0, by decide⟩) ∧
    (handleKeyDown false false true KeyCommand.copyKey 7 exStateC7).copiedNodes
        = exStateC7.nodes.filter (fun n => n.selected) :=
  have h := c7_copy_paste_amended exStateC7 7
  ⟨(h.2.1 (by decide)).2.1, (h.2.1 (by decide)).2.2, h.2.2.1 0 (by decide) (by decide), h.1.1⟩

theorem c9_witness : exEdgeBB.source ≠ "A" ∧ exEdgeBB.target ≠ "A" :=
  (c9_no_dangling_edges [NodeChange.remove "A"] exStateC9).1 exEdgeBB (by decide) "A" (by decide)
